import Mathlib

set_option maxRecDepth 4000

/-!
Verification of the GenCast pipeline (src/index.ts) against its
natural-language specification.  The TypeScript code is shallowly embedded:
JavaScript strings are modelled as lists of characters, the csv-parser,
cheerio, axios and the two LLM SDKs are modelled at their documented
boundaries, and every fallible call is an Option.
-/

namespace GenCast

/-- JavaScript strings are modelled as lists of characters.  (JS indexes
UTF-16 code units; for the characters appearing in this program the two
notions coincide, and the model does not distinguish them.) -/
abbrev Str := List Char

/-- The whitespace class of the JS regular expression where it matters here:
space, tab, newline, carriage return, vertical tab, form feed. -/
def isWS (c : Char) : Bool :=
  c = ' ' || c = '\t' || c = '\n' || c = '\r' || c = '\x0b' || c = '\x0c'

/-- Remove trailing whitespace (the right half of the JS trim method). -/
def dropTrailWS : Str → Str
  | [] => []
  | c :: cs =>
    match dropTrailWS cs with
    | [] => if isWS c then [] else [c]
    | x :: xs => c :: x :: xs

/-- The JS trim method: strip leading and trailing whitespace. -/
def jsTrim (s : Str) : Str := dropTrailWS (s.dropWhile isWS)

/-- Split a character list at every occurrence of a separator character.
A list with n separators yields n+1 chunks; used for the lines of a file
and the comma-separated cells of a CSV line. -/
def splitCh (sep : Char) : Str → List Str
  | [] => [[]]
  | c :: cs =>
    if c = sep then [] :: splitCh sep cs
    else
      match splitCh sep cs with
      | [] => [[c]]
      | l :: ls => (c :: l) :: ls

/-- Decimal digit character; the argument is taken modulo the match. -/
def digCh (n : Nat) : Char :=
  if n = 0 then '0' else if n = 1 then '1' else if n = 2 then '2'
  else if n = 3 then '3' else if n = 4 then '4' else if n = 5 then '5'
  else if n = 6 then '6' else if n = 7 then '7' else if n = 8 then '8' else '9'

/-- Decimal rendering, fuel-driven so that it reduces in the kernel; the
fuel in natDec always suffices. -/
def natDecGo : Nat → Nat → Str
  | 0, _ => []
  | fuel + 1, n => if n < 10 then [digCh n] else natDecGo fuel (n / 10) ++ [digCh (n % 10)]

/-- Decimal rendering of a natural number, as JS template interpolation of a
number produces it. -/
def natDec (n : Nat) : Str := natDecGo (n + 1) n

/-- The JS regex replace of every maximal whitespace run by one space,
written with an explicit inside-a-run flag so the recursion is structural.
collapseGo true skips the rest of a run whose first character was already
replaced by one space. -/
def collapseGo : Bool → Str → Str
  | _, [] => []
  | inRun, c :: cs =>
    if isWS c then
      if inRun then collapseGo true cs else ' ' :: collapseGo true cs
    else c :: collapseGo false cs

/-- The JS regex replace of every maximal whitespace run by one space
(content.replace over the whitespace class, global). -/
def collapseWS (s : Str) : Str := collapseGo false s

/-- True when no two consecutive characters are both whitespace. -/
def noDoubleWS : Str → Bool
  | a :: b :: rest => !(isWS a && isWS b) && noDoubleWS (b :: rest)
  | _ => true

/-- The backquote character, written by code point. -/
def backquoteCh : Char := Char.ofNat 96

/-- The single-quote character, written by code point. -/
def quoteCh : Char := Char.ofNat 39

/-- GetSubstitution of ECMAScript for a string pattern (no capture groups):
the replacement template is scanned left to right; a doubled dollar yields
one dollar, dollar-ampersand yields the matched text, dollar-backquote the
part of the subject before the match, dollar-quote the part after it; a
dollar followed by anything else (digits included, since a string pattern
has no captures) is copied literally and scanning resumes at the next
character. -/
def dollarExpand (matched before after : Str) : Str → Str
  | [] => []
  | c :: rest =>
    if c = '$' then
      match rest with
      | [] => ['$']
      | d :: rest2 =>
        if d = '$' then '$' :: dollarExpand matched before after rest2
        else if d = '&' then matched ++ dollarExpand matched before after rest2
        else if d = backquoteCh then before ++ dollarExpand matched before after rest2
        else if d = quoteCh then after ++ dollarExpand matched before after rest2
        else '$' :: d :: dollarExpand matched before after rest2
    else c :: dollarExpand matched before after rest

/-- The split of a string around the first occurrence of a pattern: the
part before the match and the part after it, or none when the pattern does
not occur.  (An empty pattern matches at the front.) -/
def findSplit (pat : Str) : Str → Option (Str × Str)
  | [] => if pat.isEmpty then some ([], []) else none
  | c :: cs =>
    if pat.isPrefixOf (c :: cs) then some ([], (c :: cs).drop pat.length)
    else
      match findSplit pat cs with
      | some (b, a) => some (c :: b, a)
      | none => none

/-- First-occurrence substitution, the behaviour of the JS string replace
method with a string pattern: the subject is returned unchanged when the
pattern does not occur; otherwise the replacement, with its dollar escapes
expanded per GetSubstitution, is spliced in place of the first match. -/
def listSubst (pat rep s : Str) : Str :=
  match findSplit pat s with
  | none => s
  | some (before, after) => before ++ dollarExpand pat before after rep ++ after

/-- Does pat occur as a contiguous substring of s? -/
def hasSub (pat : Str) : Str → Bool
  | [] => pat.isEmpty
  | c :: cs => pat.isPrefixOf (c :: cs) || hasSub pat cs

/-- Lower-casing for the case-insensitive header comparison. -/
def lowerStr (s : Str) : Str := s.map Char.toLower

/-! ## The csv-parser boundary (Link Extractor, src/index.ts lines 166-186)

csv-parser with default options uses the first line of the file as the
header row and emits every later line as a record keyed by those headers;
a cell beyond the headers gets a positional underscore key.  Quoting and
custom separators are not exercised by this program and are not modelled:
a line is split at every comma. -/

/-- A parsed CSV record: column name to cell value, in column order. -/
abbrev Row := List (Str × Str)

/-- Key the cells of one line by the header list (csv-parser record shape). -/
def keyCells (hs : List Str) : Nat → List Str → Row
  | _, [] => []
  | i, v :: vs => (hs.getD i ('_' :: natDec i), v) :: keyCells hs (i + 1) vs

/-- The records csv-parser emits for a file: the first line is consumed as
the header row, every later line becomes one keyed record. -/
def csvRows (content : Str) : List Row :=
  match splitCh '\n' content with
  | [] => []
  | header :: dataLines =>
    dataLines.map (fun line => keyCells (splitCh ',' header) 0 (splitCh ',' line))

/-- JS property access on a record: the value of the first matching key. -/
def rowGet : Row → Str → Option Str
  | [], _ => none
  | (k, v) :: r, key => if k = key then some v else rowGet r key

/-- JS truthiness of a string-or-undefined value: defined and non-empty. -/
def truthy : Option Str → Bool
  | none => false
  | some s => !s.isEmpty

/-- The JS or-operator on string-or-undefined values. -/
def jsOr (a b : Option Str) : Option Str := if truthy a then a else b

/-- row.url or row.link or row.URL or row.Link or the first value of the
row (src/index.ts line 174). -/
def resolveChain (r : Row) : Option Str :=
  jsOr (rowGet r "url".data)
    (jsOr (rowGet r "link".data)
      (jsOr (rowGet r "URL".data)
        (jsOr (rowGet r "Link".data) ((r.map Prod.snd).head?))))

/-- The data handler: when the resolved value is a truthy string, its
trimmed form is appended (src/index.ts lines 175-177). -/
def resolveURL (r : Row) : Option Str :=
  match resolveChain r with
  | none => none
  | some s => if s.isEmpty then none else some (jsTrim s)

/-- Accumulation over all emitted records, in order. -/
def extractLinks (rows : List Row) : List Str := rows.filterMap resolveURL

/-- readCSVLinks (src/index.ts lines 166-186) on the file contents. -/
def readCSVLinks (content : Str) : List Str := extractLinks (csvRows content)

/-- First line of a file (for the header classification of the spec). -/
def firstLine (content : Str) : Str := (splitCh '\n' content).headI

/-- Spec 4.1, headered branch, per-row search: try the fields named url,
link, URL, Link in order; the first whose value is a non-empty string wins;
if none, the first value of the row regardless of key. -/
def firstNonEmptyField (r : Row) : List Str → Option Str
  | [] => (r.map Prod.snd).head?
  | k :: ks =>
    match rowGet r k with
    | some v => if v.isEmpty then firstNonEmptyField r ks else some v
    | none => firstNonEmptyField r ks

/-- Spec 4.1: the winning candidate, when it is a non-empty string, is
trimmed and appended; otherwise the row is skipped. -/
def specResolve (r : Row) : Option Str :=
  match firstNonEmptyField r ["url".data, "link".data, "URL".data, "Link".data] with
  | none => none
  | some v => if v.isEmpty then none else some (jsTrim v)

/-- Spec 4.1, headered branch at file level: the first line serves only as
the header, each subsequent row is searched as above. -/
def specExtractHeadered (content : Str) : List Str :=
  (csvRows content).filterMap specResolve

/-! ## The Content Fetcher (fetchArticleContent, src/index.ts lines 58-114)

An HTML document is modelled at the cheerio boundary after the removal of
script and style elements: the text of the first h1, the text of the title
element, the text-or-absence of each CSS selector (some when at least one
element matches), and the text of the whole body. -/

/-- The cheerio view of a fetched document. -/
structure Doc where
  h1 : Str                 -- text of the first h1 element, empty when none
  titleTag : Str           -- text of the title element, empty when none
  sel : Str → Option Str   -- some raw-text when the selector matches an element
  body : Str               -- text of the whole body

/-- The fixed, ordered selector list (src/index.ts lines 79-87). -/
def contentSelectors : List Str :=
  ["article".data, ".content".data, ".article-content".data, ".post-content".data,
   ".entry-content".data, "main".data, ".main-content".data]

/-- The selector loop (src/index.ts lines 89-95): on the first selector
matching at least one element, take the trimmed text and break. -/
def findContent (doc : Doc) : List Str → Str
  | [] => []
  | s :: rest =>
    match doc.sel s with
    | some txt => jsTrim txt
    | none => findContent doc rest

/-- The loop followed by the body fallback when content is still the empty
string (src/index.ts lines 97-100). -/
def selectContent (doc : Doc) : Str :=
  let c := findContent doc contentSelectors
  if c.isEmpty then jsTrim doc.body else c

/-- Title resolution (src/index.ts lines 73-75): first h1 text, else title
text, else the sentinel. -/
def pickTitle (doc : Doc) : Str :=
  let a := jsTrim doc.h1
  if a.isEmpty then
    let b := jsTrim doc.titleTag
    if b.isEmpty then "No title found".data else b
  else a

/-- The cleanup line (src/index.ts line 103): collapse whitespace runs to a
single space, then trim. -/
def cleanContent (s : Str) : Str := jsTrim (collapseWS s)

/-- The production truncation limit (src/index.ts line 108). -/
def MAX_CONTENT : Nat := 4000

/-- The content field of a successful fetch: cleaned and hard-truncated. -/
def fetchedContent (doc : Doc) : Str := (cleanContent (selectContent doc)).take MAX_CONTENT

structure ArticleContent where
  url : Str
  title : Str
  content : Str
deriving DecidableEq

/-- fetchArticleContent: the axios response is an external outcome; none
models any network, timeout or parse failure (caught, logged, null). -/
def fetchArticleContent (url : Str) (response : Option Doc) : Option ArticleContent :=
  response.map (fun doc =>
    { url := url, title := pickTitle doc, content := fetchedContent doc })

/-- The first selector of the fixed list that matches at least one element. -/
def firstMatchSel (doc : Doc) : Option Str :=
  contentSelectors.find? (fun s => (doc.sel s).isSome)

/-! ## The Debriefing Generator (generateDebriefing, src/index.ts 116-164) -/

/-- One block of an Anthropic message response; the code inspects only
whether the first block has type text. -/
inductive ClaudeBlock where
  | text (s : Str)
  | other
deriving DecidableEq

/-- The fixed sentinel for a missing summary. -/
def SENTINEL : Str := "No summary generated".data

/-- OpenAI branch summary (src/index.ts line 137): the optional chain
choices[0]?.message?.content may be absent; trimmed text, with the JS
or-operator substituting the sentinel for undefined or empty. -/
def openAISummary (content : Option Str) : Str :=
  match content with
  | none => SENTINEL
  | some s => if (jsTrim s).isEmpty then SENTINEL else jsTrim s

/-- Claude branch summary (src/index.ts line 152): the ternary on the type
of the first content block; a text block yields its trimmed text, anything
else the sentinel. -/
def claudeSummary (blocks : List ClaudeBlock) : Str :=
  match blocks.head? with
  | some (ClaudeBlock.text s) => jsTrim s
  | _ => SENTINEL

structure Debriefing where
  url : Str
  title : Str
  summary : Str
deriving DecidableEq

/-- The prompt template CUSTOM_PROMPT (src/index.ts lines 46-56). -/
def CUSTOM_PROMPT : Str :=
  ("You are an expert analyst reviewing news articles. Please provide a comprehensive debriefing of the following article that includes:\n\n1. A concise summary of the main points\n2. Key takeaways and implications\n3. Any notable quotes or data points\n4. Relevance to current events or trends\n\nPlease keep the debriefing informative yet concise, around 200-300 words.\n\nArticle Title: \x7btitle\x7d\nArticle Content: \x7bcontent\x7d").data

/-- The prompt construction (src/index.ts lines 118-120): replace the first
occurrence of the title placeholder, then the first occurrence of the
content placeholder, each as literal text. -/
def buildPrompt (article : ArticleContent) : Str :=
  listSubst "\x7bcontent\x7d".data article.content
    (listSubst "\x7btitle\x7d".data article.title CUSTOM_PROMPT)

/-- The template text before the title placeholder. -/
def promptPre : Str :=
  ("You are an expert analyst reviewing news articles. Please provide a comprehensive debriefing of the following article that includes:\n\n1. A concise summary of the main points\n2. Key takeaways and implications\n3. Any notable quotes or data points\n4. Relevance to current events or trends\n\nPlease keep the debriefing informative yet concise, around 200-300 words.\n\nArticle Title: ").data

/-- The template text between the two placeholders. -/
def promptMid : Str := "\nArticle Content: ".data

/-- The template text after the content placeholder. -/
def promptPost : Str := []

/-- generateDebriefing: builds the prompt (consumed by the provider SDK),
then the branch on the provider chosen at startup.  The SDK call is an
external outcome: the outer none models a thrown transport error (caught,
logged, null); a some carries the provider response. -/
def generateDebriefing (useOA : Bool) (article : ArticleContent)
    (oaResp : Option (Option Str)) (clResp : Option (List ClaudeBlock)) : Option Debriefing :=
  if useOA then
    oaResp.map (fun content =>
      { url := article.url, title := article.title, summary := openAISummary content })
  else
    clResp.map (fun blocks =>
      { url := article.url, title := article.title, summary := claudeSummary blocks })

/-! ## The Report Writer (saveDebriefings, src/index.ts lines 188-203) -/

/-- The 80-character divider. -/
def eq80 : Str := List.replicate 80 '='

/-- One rendered entry, the template literal of src/index.ts lines 190-199:
newline, the numbered header line, URL line, TITLE line, blank line,
DEBRIEFING line, the summary, blank line, the divider, newline. -/
def entryStr (i : Nat) (d : Debriefing) : Str :=
  '\n' :: ("=== ARTICLE ".data ++ natDec (i + 1) ++ (" ===".data ++ ('\n' ::
    ("URL: ".data ++ (d.url ++ ('\n' :: ("TITLE: ".data ++ (d.title ++ ('\n' :: '\n' ::
      ("DEBRIEFING:".data ++ ('\n' :: (d.summary ++ ('\n' :: '\n' ::
        (eq80 ++ ['\n']))))))))))))))

/-- debriefings.map with its running index. -/
def renderEntries (i : Nat) : List Debriefing → List Str
  | [] => []
  | d :: ds => entryStr i d :: renderEntries (i + 1) ds

/-- Array.join with a newline separator. -/
def interNL : List Str → Str
  | [] => []
  | [e] => e
  | e :: e2 :: es => e ++ '\n' :: interNL (e2 :: es)

/-- The full report text written by saveDebriefings. -/
def reportContent (ds : List Debriefing) : Str := interNL (renderEntries 0 ds)

/-- The lines of a text, splitting at every newline. -/
def splitNL (s : Str) : List Str := splitCh '\n' s

/-- The fixed prefix of every article header line. -/
def hdrPat : Str := "=== ARTICLE ".data

/-- A line that begins an article section. -/
def isHdrLine (l : Str) : Bool := hdrPat.isPrefixOf l

/-- The header line of article number k. -/
def hdrLine (k : Nat) : Str := hdrPat ++ natDec k ++ " ===".data

/-- No line of any field of the debriefing itself begins like an article
header line. -/
def cleanFields (d : Debriefing) : Bool :=
  ((splitNL d.url).all fun l => !isHdrLine l) &&
  ((splitNL d.title).all fun l => !isHdrLine l) &&
  ((splitNL d.summary).all fun l => !isHdrLine l)

/-! ## The Orchestrator (module top level and main, src/index.ts 10-28 and
205-272)

The environment and the per-iteration network outcomes are the inputs; the
result is the process exit status together with the debriefing sequence
handed to saveDebriefings (none when the run aborts before writing).  File
reads and the final write are modelled as succeeding; the catch-all of main
is unreachable in that model. -/

structure Env where
  hasOpenAIKey : Bool
  hasClaudeKey : Bool
  csvExists : Bool
  csvContent : Str
  fetchOutcome : Nat → Option Doc
  oaOutcome : Nat → Option (Option Str)
  clOutcome : Nat → Option (List ClaudeBlock)

/-- The per-link loop (src/index.ts lines 240-261): fetch, skip on failure,
generate, skip on failure, accumulate. -/
def processLinks (env : Env) : Nat → List Str → List Debriefing
  | _, [] => []
  | i, l :: ls =>
    match fetchArticleContent l (env.fetchOutcome i) with
    | none => processLinks env (i + 1) ls
    | some article =>
      match generateDebriefing env.hasOpenAIKey article (env.oaOutcome i) (env.clOutcome i) with
      | none => processLinks env (i + 1) ls
      | some d => d :: processLinks env (i + 1) ls

/-- The whole run: the startup credential check (lines 22-25), the CSV
existence check (lines 223-226), the zero-link check (lines 232-235), then
the loop and the write; first component is the exit status. -/
def mainRun (env : Env) : Nat × Option (List Debriefing) :=
  if !env.hasOpenAIKey && !env.hasClaudeKey then (1, none)
  else if !env.csvExists then (1, none)
  else
    let links := readCSVLinks env.csvContent
    if links.length = 0 then (1, none)
    else (0, some (processLinks env 0 links))

/-! ## Concrete inputs for the counterexamples and witnesses -/

/-- A document whose article element matches but holds only whitespace,
while a .content element holds text: the selector loop binds the empty
trim, then the body fallback fires. -/
def docSelCE : Doc :=
  { h1 := [], titleTag := [],
    sel := fun s =>
      if s = "article".data then some "  ".data
      else if s = ".content".data then some "X".data else none,
    body := " BODY ".data }

/-- A document for the C5 witness: a matching article with usable text. -/
def docSelW : Doc :=
  { h1 := [], titleTag := [],
    sel := fun s => if s = "article".data then some "  hi there  ".data else none,
    body := "B".data }

/-- Article text of 3999 letters, one space, then three letters: already
whitespace-normalized, and the 4000-character cut falls right after the
space. -/
def longContent : Str := List.replicate 3999 'a' ++ ' ' :: "bbb".data

/-- The document carrying longContent in its article element. -/
def docLong : Doc :=
  { h1 := [], titleTag := [],
    sel := fun s => if s = "article".data then some longContent else none,
    body := [] }

/-- A small document for the C6 witness. -/
def docCleanW : Doc :=
  { h1 := [], titleTag := [],
    sel := fun s => if s = "article".data then some "a  b".data else none,
    body := [] }

/-- A small document for the C10 witness. -/
def docIdW : Doc :=
  { h1 := "H".data, titleTag := [], sel := fun _ => none, body := "B".data }

/-- A debriefing whose summary itself contains an article header line. -/
def dPolluted : Debriefing :=
  ⟨"u".data, "t".data, ('x' :: '\n' :: hdrLine 1)⟩

/-- Two ordinary debriefings, to exhibit the gap between adjacent entries. -/
def dPlainA : Debriefing := ⟨"u1".data, "t1".data, "s1".data⟩

/-- Second ordinary debriefing for the same report. -/
def dPlainB : Debriefing := ⟨"u2".data, "t2".data, "s2".data⟩

end GenCast

namespace GenCast

/-- The rendered entry agrees character-for-character with the template
literal of the source on a sample debriefing (the divider being eighty
equals signs). -/
theorem entryStr_spelling : entryStr 0 dPlainA =
    ("\n=== ARTICLE 1 ===\nURL: u1\nTITLE: t1\n\nDEBRIEFING:\ns1\n\n").data
      ++ List.replicate 80 '=' ++ "\n".data := by
  decide

/-! ## Lemmas about the splitting primitive -/

theorem splitCh_ne_nil (sep : Char) (s : Str) : splitCh sep s ≠ [] := by
  cases s with
  | nil => simp [splitCh]
  | cons c cs =>
    simp only [splitCh]
    split
    · simp
    · split <;> simp

theorem splitCh_append_sep (sep : Char) (a b : Str) :
    splitCh sep (a ++ sep :: b) = splitCh sep a ++ splitCh sep b := by
  induction a with
  | nil => simp [splitCh]
  | cons c cs ih =>
    simp only [List.cons_append, splitCh, List.append_eq]
    by_cases hc : c = sep
    · simp [hc, ih]
    · simp only [if_neg hc]
      rw [ih]
      cases hsp : splitCh sep cs with
      | nil => exact absurd hsp (splitCh_ne_nil sep cs)
      | cons l ls => simp

theorem splitCh_sepfree (sep : Char) (a : Str) (h : ∀ c ∈ a, c ≠ sep) :
    splitCh sep a = [a] := by
  induction a with
  | nil => rfl
  | cons c cs ih =>
    have hc : c ≠ sep := h c (List.mem_cons_self c cs)
    have ih2 := ih (fun x hx => h x (List.mem_cons_of_mem c hx))
    simp [splitCh, hc, ih2]

theorem splitCh_sepfree_append (sep : Char) (a b : Str) (h : ∀ c ∈ a, c ≠ sep) :
    splitCh sep (a ++ b) = (a ++ (splitCh sep b).headI) :: (splitCh sep b).tail := by
  induction a with
  | nil =>
    simp only [List.nil_append]
    cases hb : splitCh sep b with
    | nil => exact absurd hb (splitCh_ne_nil sep b)
    | cons l ls => simp [List.headI]
  | cons c cs ih =>
    have hc : c ≠ sep := h c (List.mem_cons_self c cs)
    have ih2 := ih (fun x hx => h x (List.mem_cons_of_mem c hx))
    simp only [List.cons_append, splitCh, if_neg hc, List.append_eq]
    rw [ih2]

/-- The lines of a text starting with a newline. -/
theorem splitNL_cons_nl (x : Str) : splitNL ('\n' :: x) = [] :: splitNL x := by
  simp [splitNL, splitCh]

/-- The lines of a text around an explicit newline. -/
theorem splitNL_append_nl (a x : Str) : splitNL (a ++ '\n' :: x) = splitNL a ++ splitNL x :=
  splitCh_append_sep '\n' a x

/-- A newline-free text is one line. -/
theorem splitNL_line (a : Str) (h : ∀ c ∈ a, c ≠ '\n') : splitNL a = [a] :=
  splitCh_sepfree '\n' a h

/-- A newline-free text prefixed to another merges into its first line. -/
theorem splitNL_line_append (a x : Str) (h : ∀ c ∈ a, c ≠ '\n') :
    splitNL (a ++ x) = (a ++ (splitNL x).headI) :: (splitNL x).tail :=
  splitCh_sepfree_append '\n' a x h

/-! ## Lemmas about prefixes, trimming and whitespace collapse -/

theorem isPrefixOf_append_self (p t : Str) : p.isPrefixOf (p ++ t) = true :=
  List.isPrefixOf_iff_prefix.mpr (List.prefix_append p t)

theorem isPrefixOf_cons_false (p c : Char) (ps l : Str) (h : p ≠ c) :
    (p :: ps).isPrefixOf (c :: l) = false := by
  simp [List.isPrefixOf, h]

theorem dropTrailWS_last_nonws (l : Str) (c : Char) (h : isWS c = false) :
    dropTrailWS (l ++ [c]) = l ++ [c] := by
  induction l with
  | nil => simp [dropTrailWS, h]
  | cons a l2 ih =>
    simp only [List.cons_append, dropTrailWS, List.append_eq]
    rw [ih]
    cases hl : l2 ++ [c] with
    | nil => exact absurd hl (by simp)
    | cons x xs => rfl

theorem jsTrim_cons_append_nonws (c : Char) (m : Str) (d : Char)
    (hc : isWS c = false) (hd : isWS d = false) :
    jsTrim (c :: (m ++ [d])) = c :: (m ++ [d]) := by
  unfold jsTrim
  rw [List.dropWhile_cons]
  simp only [hc, Bool.false_eq_true, if_false]
  exact dropTrailWS_last_nonws (c :: m) d hd

theorem collapseGo_false_nonws_append (l m : Str) (h : ∀ c ∈ l, isWS c = false) :
    collapseGo false (l ++ m) = l ++ collapseGo false m := by
  induction l with
  | nil => rfl
  | cons c cs ih =>
    have hc : isWS c = false := h c (List.mem_cons_self c cs)
    have ih2 := ih (fun x hx => h x (List.mem_cons_of_mem c hx))
    simp [collapseGo, hc, ih2]

/-- The collapse in its skipping state emits a non-whitespace head. -/
theorem collapseGo_true_head (l : Str) : ∀ x xs, collapseGo true l = x :: xs → isWS x = false := by
  induction l with
  | nil => intro x xs h; simp [collapseGo] at h
  | cons c cs ih =>
    intro x xs h
    by_cases hc : isWS c = true
    · rw [show collapseGo true (c :: cs) = collapseGo true cs by simp [collapseGo, hc]] at h
      exact ih x xs h
    · have hc2 : isWS c = false := by simpa using hc
      rw [show collapseGo true (c :: cs) = c :: collapseGo false cs
        by simp [collapseGo, hc2]] at h
      injection h with h1 h2
      subst h1
      exact hc2

/-- noDoubleWS on a cons unfolds to the head pair and the tail. -/
theorem noDoubleWS_cons_cons (a b : Char) (l : Str) :
    noDoubleWS (a :: b :: l) = (!(isWS a && isWS b) && noDoubleWS (b :: l)) := rfl

theorem noDoubleWS_collapseGo (l : Str) : ∀ b, noDoubleWS (collapseGo b l) = true := by
  induction l with
  | nil => intro b; rfl
  | cons c cs ih =>
    intro b
    by_cases hc : isWS c = true
    · cases b with
      | true =>
        rw [show collapseGo true (c :: cs) = collapseGo true cs by simp [collapseGo, hc]]
        exact ih true
      | false =>
        rw [show collapseGo false (c :: cs) = ' ' :: collapseGo true cs
          by simp [collapseGo, hc]]
        cases hcc : collapseGo true cs with
        | nil => rfl
        | cons x xs =>
          have hx : isWS x = false := collapseGo_true_head cs x xs hcc
          rw [noDoubleWS_cons_cons, hx]
          have h2 := ih true
          rw [hcc] at h2
          simp [h2]
    · have hc2 : isWS c = false := by simpa using hc
      rw [show collapseGo b (c :: cs) = c :: collapseGo false cs by simp [collapseGo, hc2]]
      cases hcc : collapseGo false cs with
      | nil => rfl
      | cons x xs =>
        rw [noDoubleWS_cons_cons, hc2]
        have h2 := ih false
        rw [hcc] at h2
        simp [h2]

theorem noDoubleWS_collapseWS (l : Str) : noDoubleWS (collapseWS l) = true :=
  noDoubleWS_collapseGo l false

theorem noDoubleWS_tail (a : Char) (l : Str) (h : noDoubleWS (a :: l) = true) :
    noDoubleWS l = true := by
  cases l with
  | nil => rfl
  | cons b r =>
    rw [noDoubleWS_cons_cons, Bool.and_eq_true] at h
    exact h.2

theorem noDoubleWS_take (l : Str) : ∀ n, noDoubleWS l = true → noDoubleWS (l.take n) = true := by
  induction l with
  | nil => intro n _; simp [noDoubleWS]
  | cons a l2 ih =>
    intro n h
    cases n with
    | zero => rfl
    | succ m =>
      rw [List.take_succ_cons]
      cases l2 with
      | nil => simp [noDoubleWS]
      | cons b r =>
        cases m with
        | zero => simp [noDoubleWS]
        | succ k =>
          rw [List.take_succ_cons, noDoubleWS_cons_cons]
          rw [noDoubleWS_cons_cons, Bool.and_eq_true] at h
          rw [h.1, Bool.true_and]
          have := ih (k + 1) h.2
          rwa [List.take_succ_cons] at this

theorem noDoubleWS_drop (n : Nat) : ∀ l : Str, noDoubleWS l = true → noDoubleWS (l.drop n) = true := by
  induction n with
  | zero => intro l h; simpa using h
  | succ m ih =>
    intro l h
    cases l with
    | nil => simp [noDoubleWS]
    | cons a r =>
      rw [List.drop_succ_cons]
      exact ih r (noDoubleWS_tail a r h)

theorem dropWhile_eq_drop (p : Char → Bool) (l : Str) : ∃ k, l.dropWhile p = l.drop k := by
  induction l with
  | nil => exact ⟨0, rfl⟩
  | cons c cs ih =>
    by_cases hc : p c = true
    · obtain ⟨k, hk⟩ := ih
      exact ⟨k + 1, by simp [List.dropWhile_cons, hc, hk]⟩
    · exact ⟨0, by simp [List.dropWhile_cons, hc]⟩

theorem dropTrailWS_eq_take (l : Str) : ∃ k, dropTrailWS l = l.take k := by
  induction l with
  | nil => exact ⟨0, rfl⟩
  | cons c cs ih =>
    obtain ⟨k, hk⟩ := ih
    cases hd : dropTrailWS cs with
    | nil =>
      by_cases hc : isWS c = true
      · exact ⟨0, by simp [dropTrailWS, hd, hc]⟩
      · exact ⟨1, by simp [dropTrailWS, hd, hc]⟩
    | cons x xs =>
      refine ⟨k + 1, ?_⟩
      simp only [dropTrailWS, hd, List.take_succ_cons]
      rw [← hd, hk]

theorem noDoubleWS_jsTrim (l : Str) (h : noDoubleWS l = true) : noDoubleWS (jsTrim l) = true := by
  unfold jsTrim
  obtain ⟨k1, h1⟩ := dropWhile_eq_drop isWS l
  obtain ⟨k2, h2⟩ := dropTrailWS_eq_take (l.dropWhile isWS)
  rw [h2, h1]
  exact noDoubleWS_take _ k2 (noDoubleWS_drop k1 l h)

/-- The first character surviving dropWhile fails the predicate. -/
theorem dropWhile_head_false (p : Char → Bool) (l : Str) (c : Char) (cs : Str)
    (h : l.dropWhile p = c :: cs) : p c = false := by
  induction l with
  | nil => simp at h
  | cons a r ih =>
    by_cases ha : p a = true
    · exact ih (by simpa [List.dropWhile_cons, ha] using h)
    · rw [List.dropWhile_cons, if_neg (by simp [ha])] at h
      cases h
      simpa using ha

/-- dropTrailWS keeps the head of its argument when the result is non-empty. -/
theorem dropTrailWS_head (l : Str) (c : Char) (cs : Str)
    (h : dropTrailWS l = c :: cs) : l.head? = some c := by
  cases l with
  | nil => simp [dropTrailWS] at h
  | cons a r =>
    simp only [dropTrailWS] at h
    cases hd : dropTrailWS r with
    | nil =>
      rw [hd] at h
      by_cases ha : isWS a = true
      · simp [ha] at h
      · simp only [ha, Bool.false_eq_true, if_false] at h
        cases h; rfl
    | cons x xs =>
      rw [hd] at h
      cases h; rfl

/-- The trimmed form of a string starts with a non-whitespace character. -/
theorem jsTrim_head_nonws (l : Str) (c : Char) (cs : Str)
    (h : jsTrim l = c :: cs) : isWS c = false := by
  unfold jsTrim at h
  have h2 := dropTrailWS_head _ c cs h
  cases hdw : l.dropWhile isWS with
  | nil => rw [hdw] at h2; simp at h2
  | cons x xs =>
    rw [hdw] at h2
    simp only [List.head?_cons, Option.some.injEq] at h2
    rw [← h2]
    exact dropWhile_head_false isWS l x xs hdw

/-! ## Lemmas about the report rendering -/

theorem digCh_ne_nl (n : Nat) : digCh n ≠ '\n' := by
  unfold digCh
  repeat' split
  all_goals decide

theorem natDecGo_ne_nl : ∀ (fuel n : Nat), ∀ c ∈ natDecGo fuel n, c ≠ '\n' := by
  intro fuel
  induction fuel with
  | zero => intro n c hc; simp [natDecGo] at hc
  | succ f ih =>
    intro n c hc
    simp only [natDecGo] at hc
    by_cases h : n < 10
    · rw [if_pos h] at hc
      simp only [List.mem_singleton] at hc
      subst hc
      exact digCh_ne_nl n
    · rw [if_neg h, List.mem_append] at hc
      cases hc with
      | inl h1 => exact ih (n / 10) c h1
      | inr h2 =>
        simp only [List.mem_singleton] at h2
        subst h2
        exact digCh_ne_nl (n % 10)

theorem natDec_ne_nl (n : Nat) : ∀ c ∈ natDec n, c ≠ '\n' :=
  natDecGo_ne_nl (n + 1) n

theorem hdrLine_nlfree (k : Nat) : ∀ c ∈ hdrLine k, c ≠ '\n' := by
  intro c hc
  unfold hdrLine hdrPat at hc
  rw [List.mem_append] at hc
  cases hc with
  | inl h1 =>
    rw [List.mem_append] at h1
    cases h1 with
    | inl h3 => exact fun heq => absurd (heq ▸ h3) (by decide)
    | inr h4 => exact natDec_ne_nl k c h4
  | inr h2 => exact fun heq => absurd (heq ▸ h2) (by decide)

theorem eq80_nlfree : ∀ c ∈ eq80, c ≠ '\n' := by
  intro c hc
  have h2 := (List.mem_replicate.mp hc).2
  subst h2
  decide

theorem isHdrLine_hdrLine (k : Nat) : isHdrLine (hdrLine k) = true := by
  unfold isHdrLine hdrLine
  exact isPrefixOf_append_self hdrPat _

theorem isHdrLine_head_false (c : Char) (l : Str) (h : c ≠ '=') : isHdrLine (c :: l) = false := by
  unfold isHdrLine hdrPat
  exact isPrefixOf_cons_false '=' c "== ARTICLE ".data l (fun he => h he.symm)

theorem isHdrLine_URL (x : Str) : isHdrLine ('U' :: 'R' :: 'L' :: ':' :: ' ' :: x) = false :=
  isHdrLine_head_false 'U' _ (by decide)

theorem isHdrLine_TITLE (x : Str) :
    isHdrLine ('T' :: 'I' :: 'T' :: 'L' :: 'E' :: ':' :: ' ' :: x) = false :=
  isHdrLine_head_false 'T' _ (by decide)

theorem filter_isHdr_nil (L : List Str) (h : ∀ l ∈ L, isHdrLine l = false) :
    L.filter isHdrLine = [] := by
  rw [List.filter_eq_nil_iff]
  intro a ha
  simp [h a ha]

/-- The lines of one rendered entry hold exactly one header line, the one
of article number i+1, provided the fields of the entry are themselves free
of header-like lines. -/
theorem filter_splitNL_entry (i : Nat) (d : Debriefing) (h : cleanFields d = true) :
    (splitNL (entryStr i d)).filter isHdrLine = [hdrLine (i + 1)] := by
  simp only [cleanFields, Bool.and_eq_true, List.all_eq_true, Bool.not_eq_true'] at h
  obtain ⟨⟨hu, ht⟩, hs⟩ := h
  have eshape : entryStr i d
      = '\n' :: (hdrLine (i + 1) ++ '\n' :: (("URL: ".data ++ d.url) ++ '\n' ::
        (("TITLE: ".data ++ d.title) ++ '\n' :: ('\n' :: ("DEBRIEFING:".data ++ '\n' ::
          (d.summary ++ '\n' :: ('\n' :: (eq80 ++ '\n' :: ([] : Str))))))))) := by
    simp [entryStr, hdrLine, hdrPat, List.append_assoc]
  rw [eshape, splitNL_cons_nl, splitNL_append_nl, splitNL_line _ (hdrLine_nlfree (i + 1)),
    splitNL_append_nl, splitNL_line_append "URL: ".data d.url (by decide),
    splitNL_append_nl, splitNL_line_append "TITLE: ".data d.title (by decide),
    splitNL_cons_nl, splitNL_append_nl, splitNL_line "DEBRIEFING:".data (by decide),
    splitNL_append_nl, splitNL_cons_nl, splitNL_append_nl, splitNL_line eq80 eq80_nlfree]
  have fnil : isHdrLine ([] : Str) = false := by decide
  have fdeb : isHdrLine "DEBRIEFING:".data = false := by decide
  have feq80 : isHdrLine eq80 = false := by decide
  have fempty : List.filter isHdrLine (splitCh '\n' ([] : Str)) = [] := by decide
  have fu : List.filter isHdrLine (splitCh '\n' d.url).tail = [] :=
    filter_isHdr_nil _ (fun l hl => hu l (List.mem_of_mem_tail hl))
  have ft : List.filter isHdrLine (splitCh '\n' d.title).tail = [] :=
    filter_isHdr_nil _ (fun l hl => ht l (List.mem_of_mem_tail hl))
  have fs : List.filter isHdrLine (splitCh '\n' d.summary) = [] := filter_isHdr_nil _ hs
  simp [List.filter_cons, List.filter_append, fnil, fdeb, feq80, fempty, fu, ft, fs,
    isHdrLine_hdrLine, isHdrLine_URL, isHdrLine_TITLE, splitNL]

/-- Over the whole joined report, the header lines are exactly those of
articles i+1, i+2, ..., in order. -/
theorem filter_report_lines (ds : List Debriefing) :
    ∀ i, (∀ d ∈ ds, cleanFields d = true) →
      (splitNL (interNL (renderEntries i ds))).filter isHdrLine
        = (List.range ds.length).map (fun j => hdrLine (i + j + 1)) := by
  induction ds with
  | nil =>
    intro i _
    have fnil : isHdrLine ([] : Str) = false := by decide
    simp [renderEntries, interNL, splitNL, splitCh, List.filter, fnil]
  | cons d rest ih =>
    intro i h
    have hd : cleanFields d = true := h d (List.mem_cons_self d rest)
    have hrest : ∀ x ∈ rest, cleanFields x = true :=
      fun x hx => h x (List.mem_cons_of_mem d hx)
    cases rest with
    | nil =>
      rw [show interNL (renderEntries i [d]) = entryStr i d from rfl,
        filter_splitNL_entry i d hd]
      simp [List.range_succ_eq_map]
    | cons d2 rest2 =>
      rw [show interNL (renderEntries i (d :: d2 :: rest2))
          = entryStr i d ++ '\n' :: interNL (renderEntries (i + 1) (d2 :: rest2)) from rfl,
        splitNL_append_nl, List.filter_append, filter_splitNL_entry i d hd,
        ih (i + 1) hrest]
      rw [show (d :: d2 :: rest2).length = (d2 :: rest2).length + 1 from rfl,
        List.range_succ_eq_map]
      simp only [List.map_cons, List.map_map, List.singleton_append, List.cons.injEq]
      constructor
      · norm_num
      · apply List.map_congr_left
        intro j _
        simp only [Function.comp]
        have harith : i + (j + 1) + 1 = i + 1 + j + 1 := by omega
        rw [harith]

/-! ## Lemmas for the truncation counterexample -/

theorem longContent_shape :
    longContent = 'a' :: ((List.replicate 3998 'a' ++ (' ' :: "bb".data)) ++ ['b']) := by
  unfold longContent
  rw [show (3999 : Nat) = 3998 + 1 from rfl, List.replicate_succ]
  rw [show (' ' :: "bbb".data) = (' ' :: "bb".data) ++ ['b'] from rfl]
  simp only [List.cons_append, List.append_assoc]

theorem jsTrim_longContent : jsTrim longContent = longContent := by
  rw [longContent_shape]
  exact jsTrim_cons_append_nonws 'a' _ 'b' (by decide) (by decide)

theorem collapseWS_longContent : collapseWS longContent = longContent := by
  unfold longContent collapseWS
  rw [collapseGo_false_nonws_append _ _ (fun c hc => by
    have h2 := (List.mem_replicate.mp hc).2
    subst h2
    decide)]
  rw [show collapseGo false (' ' :: "bbb".data) = ' ' :: "bbb".data by decide]

theorem take_longContent : longContent.take 4000 = List.replicate 3999 'a' ++ [' '] := by
  unfold longContent
  rw [show (4000 : Nat) = (List.replicate 3999 'a').length + 1 by rw [List.length_replicate]]
  rw [List.take_append]
  rfl

theorem selectContent_docLong : selectContent docLong = longContent := by
  have hsel : docLong.sel "article".data = some longContent := rfl
  have h1 : findContent docLong contentSelectors = jsTrim longContent := by
    rw [show contentSelectors = "article".data :: [".content".data, ".article-content".data,
      ".post-content".data, ".entry-content".data, "main".data, ".main-content".data] from rfl]
    simp only [findContent, hsel]
  have hemp : longContent.isEmpty = false := by rw [longContent_shape]; rfl
  unfold selectContent
  rw [h1, jsTrim_longContent]
  simp only [hemp, Bool.false_eq_true, if_false]

theorem fetchedContent_docLong :
    fetchedContent docLong = List.replicate 3999 'a' ++ [' '] := by
  unfold fetchedContent cleanContent
  rw [selectContent_docLong, collapseWS_longContent, jsTrim_longContent]
  rw [show MAX_CONTENT = 4000 from rfl]
  exact take_longContent

/-! ## Lemmas about the CSV row resolution -/

/-- The JS or-operator on string-or-undefined restated as a match. -/
theorem jsOr_eq (v rest : Option Str) :
    jsOr v rest = match v with
      | none => rest
      | some s => if s.isEmpty then rest else some s := by
  cases v with
  | none => rfl
  | some s =>
    by_cases hs : s.isEmpty
    · simp [jsOr, truthy, hs]
    · simp [jsOr, truthy, hs]

/-- One step of each chain agrees when the continuations agree; the two
sides spell the match arms in opposite order. -/
theorem chain_step (v : Option Str) (restC restS : Option Str) (hrest : restC = restS) :
    (match v with
      | none => restC
      | some s => if s.isEmpty then restC else some s)
    = (match v with
      | some s => if s.isEmpty then restS else some s
      | none => restS) := by
  subst hrest
  cases v with
  | none => rfl
  | some s => rfl

/-- The dynamic-field-lookup chain of the code equals the ordered candidate
search of the spec. -/
theorem resolveChain_eq (r : Row) :
    resolveChain r
      = firstNonEmptyField r ["url".data, "link".data, "URL".data, "Link".data] := by
  unfold resolveChain
  simp only [jsOr_eq, firstNonEmptyField]
  exact chain_step _ _ _ (chain_step _ _ _ (chain_step _ _ _ (chain_step _ _ _ rfl)))

/-- Per-row resolution of the code equals the per-row search of the spec. -/
theorem resolveURL_eq_spec (r : Row) : resolveURL r = specResolve r := by
  unfold resolveURL specResolve
  rw [resolveChain_eq]

/-! ## Lemmas about the selector loop -/

theorem findContent_none (doc : Doc) (L : List Str)
    (h : L.find? (fun s => (doc.sel s).isSome) = none) : findContent doc L = [] := by
  induction L with
  | nil => rfl
  | cons s rest ih =>
    cases hs : doc.sel s with
    | some t =>
      rw [List.find?_cons_of_pos rest (by rw [hs]; rfl)] at h
      exact absurd h (by simp)
    | none =>
      rw [List.find?_cons_of_neg rest (by rw [hs]; simp)] at h
      simp only [findContent, hs]
      exact ih h

theorem findContent_some (doc : Doc) (L : List Str) (s t : Str)
    (hf : L.find? (fun x => (doc.sel x).isSome) = some s) (hs : doc.sel s = some t) :
    findContent doc L = jsTrim t := by
  induction L with
  | nil => simp at hf
  | cons a rest ih =>
    cases ha : doc.sel a with
    | some u =>
      rw [List.find?_cons_of_pos rest (by rw [ha]; rfl)] at hf
      have has : a = s := Option.some.inj hf
      subst has
      rw [ha] at hs
      have htu : u = t := Option.some.inj hs
      subst htu
      simp [findContent, ha]
    | none =>
      rw [List.find?_cons_of_neg rest (by rw [ha]; simp)] at hf
      simp only [findContent, ha]
      exact ih hf

/-! ## Lemmas about first-occurrence substitution -/

/-- A replacement free of dollar signs is spliced in literally. -/
theorem dollarExpand_no_dollar (m b a : Str) :
    ∀ rep : Str, (∀ c ∈ rep, c ≠ '$') → dollarExpand m b a rep = rep := by
  intro rep
  induction rep with
  | nil => intro _; rfl
  | cons c rest ih =>
    intro h
    have hc : c ≠ '$' := h c (List.mem_cons_self c rest)
    rw [dollarExpand.eq_def]
    simp only [if_neg hc]
    rw [ih (fun x hx => h x (List.mem_cons_of_mem c hx))]

/-- Scanning past a block that cannot start the pattern only extends the
before part of the split. -/
theorem findSplit_skip (p : Char) (ps : Str) :
    ∀ (a t : Str), (∀ c ∈ a, c ≠ p) →
      findSplit (p :: ps) (a ++ t)
        = match findSplit (p :: ps) t with
          | some (b, aft) => some (a ++ b, aft)
          | none => none := by
  intro a
  induction a with
  | nil =>
    intro t _
    cases hf : findSplit (p :: ps) t with
    | none => simp [hf]
    | some pr => cases pr with | mk b aft => simp [hf]
  | cons c cs ih =>
    intro t h
    have hc : c ≠ p := h c (List.mem_cons_self c cs)
    have hpre : (p :: ps).isPrefixOf (c :: (cs ++ t)) = false :=
      isPrefixOf_cons_false p c ps _ (fun he => hc he.symm)
    simp only [List.cons_append, findSplit, List.append_eq, hpre, Bool.false_eq_true, if_false]
    rw [ih t (fun x hx => h x (List.mem_cons_of_mem c hx))]
    cases hf : findSplit (p :: ps) t with
    | none => rfl
    | some pr => cases pr with | mk b aft => simp

/-- The split at an explicit occurrence of the pattern at the front. -/
theorem findSplit_at (p : Char) (ps t : Str) :
    findSplit (p :: ps) ((p :: ps) ++ t) = some ([], t) := by
  have hpre : (p :: ps).isPrefixOf ((p :: ps) ++ t) = true := isPrefixOf_append_self _ _
  rw [List.cons_append] at hpre
  rw [List.cons_append]
  simp only [findSplit, hpre, if_true]
  simp only [List.length_cons, List.drop_succ_cons, List.drop_left]

/-- Substitution at the unique visible occurrence: when the text before
the pattern cannot start it and the replacement is dollar-free, the
replacement lands literally in place of the pattern. -/
theorem listSubst_literal (p : Char) (ps rep a t : Str)
    (ha : ∀ c ∈ a, c ≠ p) (hrep : ∀ c ∈ rep, c ≠ '$') :
    listSubst (p :: ps) rep (a ++ ((p :: ps) ++ t)) = a ++ (rep ++ t) := by
  unfold listSubst
  rw [findSplit_skip p ps a ((p :: ps) ++ t) ha, findSplit_at]
  simp only [List.append_nil]
  rw [dollarExpand_no_dollar _ _ _ rep hrep]
  simp only [List.append_assoc]

/-! ## The claims -/

/-- C1: the claim says a CSV file whose first line is not url or link is
headerless and every row, the first included, yields a link.  The code
pipes the file through csv-parser with default options, which consumes the
first line as the header row no matter what it holds, so on the file
http://a.com, newline, http://b.com only the second URL is extracted.  The
unit test of the repository and the README promise both URLs: the claim states
the intended behaviour and the code loses the first row. -/
theorem claimC1_code_behavior :
    readCSVLinks "http://a.com\nhttp://b.com".data = ["http://b.com".data] ∧
    readCSVLinks "http://a.com\nhttp://b.com".data
      ≠ ["http://a.com".data, "http://b.com".data] := by
  decide

/-- C2: when the first line, after trimming, case-insensitively equals url
or link, the extraction treats it purely as a header row (equal to the
spec-side extraction that searches only the subsequent rows) and the
two-data-line example yields exactly its two URLs in order. -/
theorem claimC2_header_row (content : Str)
    (_h : lowerStr (jsTrim (firstLine content)) = "url".data ∨
          lowerStr (jsTrim (firstLine content)) = "link".data) :
    readCSVLinks content = specExtractHeadered content ∧
    readCSVLinks "url\nhttp://a.com\nhttp://b.com".data
      = ["http://a.com".data, "http://b.com".data] := by
  refine ⟨?_, by decide⟩
  unfold readCSVLinks specExtractHeadered extractLinks
  rw [show resolveURL = specResolve from funext resolveURL_eq_spec]

/-- C2 witness at the concrete example file. -/
theorem claimC2_witness :
    readCSVLinks "url\nhttp://a.com\nhttp://b.com".data
      = specExtractHeadered "url\nhttp://a.com\nhttp://b.com".data ∧
    readCSVLinks "url\nhttp://a.com\nhttp://b.com".data
      = ["http://a.com".data, "http://b.com".data] :=
  claimC2_header_row "url\nhttp://a.com\nhttp://b.com".data (Or.inl (by decide))

/-- C3: every emitted record is resolved exactly as the spec orders the
candidates (url, link, URL, Link, then the first value; first non-empty
wins, trimmed), and a record resolving to nothing is skipped while
extraction of the remaining records continues. -/
theorem claimC3_row_resolution :
    (∀ r : Row, resolveURL r = specResolve r) ∧
    (∀ (pre post : List Row) (r : Row), resolveURL r = none →
      extractLinks (pre ++ r :: post) = extractLinks (pre ++ post)) := by
  constructor
  · exact resolveURL_eq_spec
  · intro pre post r h
    unfold extractLinks
    rw [List.filterMap_append, List.filterMap_append, List.filterMap_cons, h]

/-- C3 witness: a row with an empty url cell is skipped, the next row
still extracted. -/
theorem claimC3_witness :
    extractLinks (([] : List Row) ++ [("url".data, ([] : Str))] :: [[("url".data, "http://x.com".data)]])
      = extractLinks (([] : List Row) ++ [[("url".data, "http://x.com".data)]]) :=
  claimC3_row_resolution.2 [] [[("url".data, "http://x.com".data)]]
    [("url".data, ([] : Str))] (by decide)

/-- C4: the exit status is non-zero exactly when no provider credential is
set, or the input CSV is missing, or an existing CSV yields no link; the
per-article fetch and generation outcomes (arbitrary in the environment)
never influence the exit status. -/
theorem claimC4_fatal_exits (env : Env) :
    (mainRun env).1 ≠ 0 ↔
      ((env.hasOpenAIKey = false ∧ env.hasClaudeKey = false) ∨
       env.csvExists = false ∨ readCSVLinks env.csvContent = []) := by
  unfold mainRun
  cases ho : env.hasOpenAIKey <;> cases hcl : env.hasClaudeKey <;>
    cases hex : env.csvExists <;>
      by_cases hl : readCSVLinks env.csvContent = [] <;>
        simp [ho, hcl, hex, hl, List.length_eq_zero]

/-- C5 counterexample: in docSelCE the article selector matches (with
whitespace-only text) and .content holds the text X, yet the extracted
text is the trimmed document body — neither the text of the first matching
selector nor .content — refuting that the body is used only when no selector
matches at all. -/
theorem claimC5_counterexample :
    (docSelCE.sel "article".data).isSome = true ∧
    docSelCE.sel ".content".data = some "X".data ∧
    selectContent docSelCE = "BODY".data ∧
    ("BODY".data : Str) ≠ jsTrim "  ".data ∧
    ("BODY".data : Str) ≠ jsTrim "X".data := by
  decide

/-- C5 amended: the body text comes from the first selector in the fixed
order that matches, with no later selector tried, provided its trimmed
text is non-empty; when no selector matches, or the first matching
text of the first matching selector trims to empty, the trimmed text of the
whole body is used; in
particular an article element with non-empty trimmed text always wins over
.content. -/
theorem claimC5_amended (doc : Doc) :
    (firstMatchSel doc = none → selectContent doc = jsTrim doc.body) ∧
    (∀ s t, firstMatchSel doc = some s → doc.sel s = some t →
      (jsTrim t ≠ [] → selectContent doc = jsTrim t) ∧
      (jsTrim t = [] → selectContent doc = jsTrim doc.body)) ∧
    (∀ t, doc.sel "article".data = some t → jsTrim t ≠ [] →
      selectContent doc = jsTrim t) := by
  refine ⟨?_, ?_, ?_⟩
  · intro h
    unfold selectContent
    rw [findContent_none doc _ h]
    rfl
  · intro s t hf hs
    have h1 : findContent doc contentSelectors = jsTrim t :=
      findContent_some doc _ s t hf hs
    constructor
    · intro hne
      unfold selectContent
      rw [h1]
      cases hj : jsTrim t with
      | nil => exact absurd hj hne
      | cons x xs => rfl
    · intro hemp
      unfold selectContent
      rw [h1, hemp]
      rfl
  · intro t hs hne
    have hf : firstMatchSel doc = some "article".data := by
      unfold firstMatchSel contentSelectors
      exact List.find?_cons_of_pos _ (by rw [hs]; rfl)
    have h1 : findContent doc contentSelectors = jsTrim t :=
      findContent_some doc _ "article".data t hf hs
    unfold selectContent
    rw [h1]
    cases hj : jsTrim t with
    | nil => exact absurd hj hne
    | cons x xs => rfl

/-- C5 witness: a document whose article element holds usable text. -/
theorem claimC5_witness : selectContent docSelW = jsTrim "  hi there  ".data :=
  (claimC5_amended docSelW).2.2 "  hi there  ".data rfl (by decide)

/-- C6 counterexample: on docLong the 4000-character production cut falls
right after a space, so the successful fetch result ends in whitespace,
refuting the no-trailing-whitespace part of the claim. -/
theorem claimC6_counterexample :
    (fetchedContent docLong).getLast? = some ' ' ∧ isWS ' ' = true := by
  constructor
  · rw [fetchedContent_docLong]
    exact List.getLast?_concat _
  · decide

/-- C6 amended: the fetched content never exceeds the 4000-character
production maximum, holds no run of two consecutive whitespace characters,
never starts with whitespace, and is a hard prefix cut of the cleaned
text; trailing whitespace, however, can survive the cut. -/
theorem claimC6_amended (doc : Doc) :
    (fetchedContent doc).length ≤ MAX_CONTENT ∧
    noDoubleWS (fetchedContent doc) = true ∧
    (∀ c cs, fetchedContent doc = c :: cs → isWS c = false) ∧
    List.IsPrefix (fetchedContent doc) (cleanContent (selectContent doc)) := by
  refine ⟨?_, ?_, ?_, ?_⟩
  · unfold fetchedContent
    rw [List.length_take]
    exact min_le_left _ _
  · unfold fetchedContent cleanContent
    exact noDoubleWS_take _ _ (noDoubleWS_jsTrim _ (noDoubleWS_collapseWS _))
  · intro c cs h
    unfold fetchedContent cleanContent at h
    have h2 := congrArg List.head? h
    rw [List.head?_take, if_neg (by decide : ¬(MAX_CONTENT = 0))] at h2
    cases hj : jsTrim (collapseWS (selectContent doc)) with
    | nil => rw [hj] at h2; exact absurd h2 (by simp)
    | cons y ys =>
      rw [hj] at h2
      simp only [List.head?_cons, Option.some.injEq] at h2
      rw [← h2]
      exact jsTrim_head_nonws (collapseWS (selectContent doc)) y ys hj
  · unfold fetchedContent
    exact List.take_prefix _ _

/-- C6 witness at a small document. -/
theorem claimC6_witness :
    noDoubleWS (fetchedContent docCleanW) = true ∧ isWS 'a' = false :=
  ⟨(claimC6_amended docCleanW).2.1,
   (claimC6_amended docCleanW).2.2.1 'a' (' ' :: "b".data) (by decide)⟩

/-- C7 counterexample: a successful Claude call whose first content block
is a text block holding only whitespace yields the empty string as the
summary, not the sentinel, so the sentinel substitution does not hold on
the Claude branch whenever the provider returns no usable text. -/
theorem claimC7_counterexample :
    generateDebriefing false ⟨[], [], []⟩ none (some [ClaudeBlock.text "  ".data])
      = some ⟨[], [], []⟩ ∧ ([] : Str) ≠ SENTINEL := by
  decide

/-- C7 amended: on the OpenAI branch the summary is the trimmed provider
text, never empty, with the sentinel substituted for absent or
whitespace-only text; on the Claude branch the sentinel is substituted
exactly when the first content block is not a text block, and a text block
yields its trimmed text, which may be empty. -/
theorem claimC7_amended (oa : Option Str) (blocks : List ClaudeBlock) :
    (openAISummary oa ≠ [] ∧
     openAISummary none = SENTINEL ∧
     (∀ s, oa = some s →
       (jsTrim s = [] → openAISummary oa = SENTINEL) ∧
       (jsTrim s ≠ [] → openAISummary oa = jsTrim s))) ∧
    ((∀ s, blocks.head? = some (ClaudeBlock.text s) → claudeSummary blocks = jsTrim s) ∧
     ((∀ s, blocks.head? ≠ some (ClaudeBlock.text s)) → claudeSummary blocks = SENTINEL)) := by
  refine ⟨⟨?_, rfl, ?_⟩, ?_, ?_⟩
  · cases oa with
    | none => decide
    | some s =>
      simp only [openAISummary]
      by_cases hs : (jsTrim s).isEmpty = true
      · rw [if_pos hs]; decide
      · rw [if_neg hs]
        exact List.isEmpty_eq_false.mp (by simpa using hs)
  · intro s hoa
    subst hoa
    constructor
    · intro hemp
      simp only [openAISummary]
      rw [if_pos (by rw [hemp]; rfl)]
    · intro hne
      simp only [openAISummary]
      rw [if_neg (by rw [List.isEmpty_eq_false.mpr hne]; simp)]
  · intro s hb
    unfold claudeSummary
    rw [hb]
  · intro hnb
    unfold claudeSummary
    cases hb : blocks.head? with
    | none => rfl
    | some b =>
      cases b with
      | text s => exact absurd hb (hnb s)
      | other => rfl

/-- C7 witness: whitespace-padded OpenAI text is trimmed; a non-text first
Claude block yields the sentinel. -/
theorem claimC7_witness :
    openAISummary (some "  x ".data) = jsTrim "  x ".data ∧
    claudeSummary [ClaudeBlock.other] = SENTINEL :=
  ⟨((claimC7_amended (some "  x ".data) [ClaudeBlock.other]).1.2.2 "  x ".data rfl).2
    (by decide),
   (claimC7_amended (some "  x ".data) [ClaudeBlock.other]).2.2
    (fun s h => ClaudeBlock.noConfusion (Option.some.inj h))⟩

/-- C8 counterexample: with the title set to the literal text of the
content placeholder, the second replace lands inside the substituted
title, and the content placeholder of the template itself survives; and
with a content of dollar-ampersand, the replace expands the escape to the
matched placeholder text instead of inserting the content literally.
Either way the prompt is not the template with each placeholder
substituted literally once. -/
theorem claimC8_counterexample :
    buildPrompt ⟨[], "\x7bcontent\x7d".data, "C".data⟩
      ≠ promptPre ++ "\x7bcontent\x7d".data ++ promptMid ++ "C".data ++ promptPost ∧
    buildPrompt ⟨[], "T".data, "$&".data⟩
      ≠ promptPre ++ "T".data ++ promptMid ++ "$&".data ++ promptPost := by
  decide

/-- C8 amended: the template splits around the two placeholders, and for
every article whose title contains neither an opening brace nor a dollar
sign and whose content contains no dollar sign, the prompt is the template
with the title and the content each substituted literally exactly once; a
title containing an opening brace can capture the content substitution,
and dollar escapes in the title or content are expanded by the JS
replacement rules instead of being copied literally. -/
theorem claimC8_amended (article : ArticleContent)
    (h1 : ∀ c ∈ article.title, c ≠ '\x7b' ∧ c ≠ '$')
    (h2 : ∀ c ∈ article.content, c ≠ '$') :
    CUSTOM_PROMPT
      = promptPre ++ "\x7btitle\x7d".data ++ promptMid ++ "\x7bcontent\x7d".data ++ promptPost ∧
    buildPrompt article
      = promptPre ++ article.title ++ promptMid ++ article.content ++ promptPost := by
  have hpre : ∀ c ∈ promptPre, c ≠ '\x7b' := by decide
  have hmid : ∀ c ∈ promptMid, c ≠ '\x7b' := by decide
  refine ⟨by decide, ?_⟩
  unfold buildPrompt
  rw [show CUSTOM_PROMPT = promptPre ++ (('\x7b' :: "title\x7d".data)
      ++ (promptMid ++ (('\x7b' :: "content\x7d".data) ++ promptPost))) from by decide]
  rw [show ("\x7btitle\x7d".data : Str) = '\x7b' :: "title\x7d".data from rfl]
  rw [show ("\x7bcontent\x7d".data : Str) = '\x7b' :: "content\x7d".data from rfl]
  rw [listSubst_literal '\x7b' "title\x7d".data article.title promptPre _ hpre
    (fun c hc => (h1 c hc).2)]
  rw [show promptPre ++ (article.title ++ (promptMid ++ (('\x7b' :: "content\x7d".data)
        ++ promptPost)))
      = (promptPre ++ (article.title ++ promptMid))
        ++ (('\x7b' :: "content\x7d".data) ++ promptPost) by simp [List.append_assoc]]
  rw [listSubst_literal '\x7b' "content\x7d".data article.content
    (promptPre ++ (article.title ++ promptMid)) promptPost ?_ h2]
  · simp only [List.append_assoc]
  · intro c hc
    rcases List.mem_append.mp hc with hp | htm
    · exact hpre c hp
    · rcases List.mem_append.mp htm with ht | hm
      · exact (h1 c ht).1
      · exact hmid c hm

/-- C8 witness at a plain title and content. -/
theorem claimC8_witness :
    CUSTOM_PROMPT
      = promptPre ++ "\x7btitle\x7d".data ++ promptMid ++ "\x7bcontent\x7d".data ++ promptPost ∧
    buildPrompt ⟨[], "T".data, "C".data⟩
      = promptPre ++ "T".data ++ promptMid ++ "C".data ++ promptPost :=
  claimC8_amended ⟨[], "T".data, "C".data⟩ (by decide) (by decide)

/-- C9 counterexample: a summary holding a header-like line makes the
report of one debriefing show the ARTICLE 1 header line twice; and in the
report of two ordinary debriefings three consecutive newlines occur, so
adjacent entries are separated by two blank lines, not one. -/
theorem claimC9_counterexample :
    (splitNL (reportContent [dPolluted])).filter isHdrLine = [hdrLine 1, hdrLine 1] ∧
    hasSub "\n\n\n".data (reportContent [dPlainA, dPlainB]) = true := by
  decide

/-- C9 amended: provided no line of any field of the debriefings itself
begins like an article header, the header lines of the report are exactly the
lines ARTICLE k for k from 1 to N, one each, ascending, in input order; an
empty input yields a report with no ARTICLE line. -/
theorem claimC9_amended (ds : List Debriefing) (h : ∀ d ∈ ds, cleanFields d = true) :
    (splitNL (reportContent ds)).filter isHdrLine
      = (List.range ds.length).map (fun j => hdrLine (j + 1)) := by
  unfold reportContent
  rw [filter_report_lines ds 0 h]
  simp

/-- C9 witness: a one-entry report shows exactly the ARTICLE 1 header. -/
theorem claimC9_witness :
    (splitNL (reportContent [dPlainA])).filter isHdrLine
      = (List.range 1).map (fun j => hdrLine (j + 1)) :=
  claimC9_amended [dPlainA] (by decide)

/-- C10: a successful fetch carries the requested URL unchanged, and a
successful generation carries the url and title of the article unchanged. -/
theorem claimC10_identity :
    (∀ (url : Str) (resp : Option Doc) (a : ArticleContent),
      fetchArticleContent url resp = some a → a.url = url) ∧
    (∀ (flag : Bool) (article : ArticleContent) (oa : Option (Option Str))
      (cl : Option (List ClaudeBlock)) (d : Debriefing),
      generateDebriefing flag article oa cl = some d →
        d.url = article.url ∧ d.title = article.title) := by
  constructor
  · intro url resp a h
    cases resp with
    | none => exact absurd h (by simp [fetchArticleContent])
    | some doc =>
      rw [show fetchArticleContent url (some doc)
          = some { url := url, title := pickTitle doc, content := fetchedContent doc }
        from rfl] at h
      rw [← Option.some.inj h]
  · intro flag article oa cl d h
    unfold generateDebriefing at h
    cases flag with
    | true =>
      rw [if_pos rfl] at h
      cases oa with
      | none => exact absurd h (by simp)
      | some content =>
        rw [Option.map_some'] at h
        rw [← Option.some.inj h]
        exact ⟨rfl, rfl⟩
    | false =>
      rw [if_neg (by simp)] at h
      cases cl with
      | none => exact absurd h (by simp)
      | some blocks =>
        rw [Option.map_some'] at h
        rw [← Option.some.inj h]
        exact ⟨rfl, rfl⟩

/-- C10 witness at concrete successful fetch and generation outcomes. -/
theorem claimC10_witness :
    ({ url := "u".data, title := pickTitle docIdW, content := fetchedContent docIdW }
      : ArticleContent).url = "u".data ∧
    (({ url := "u".data, title := "t".data, summary := openAISummary none }
      : Debriefing).url = "u".data ∧
     ({ url := "u".data, title := "t".data, summary := openAISummary none }
      : Debriefing).title = "t".data) :=
  ⟨claimC10_identity.1 "u".data (some docIdW) _ rfl,
   claimC10_identity.2 true ⟨"u".data, "t".data, "c".data⟩ (some none) none _ rfl⟩

end GenCast
